import Mathlib

/-!
Shallow embedding of `src/app/main.py` (katemanu/docker-task-manager), a
Flask + SQLAlchemy multi-user task manager.

The relational store has two tables, `users` and `tasks`, modelled as lists
of records; SQLAlchemy's autoincrement primary keys are modelled by the
`nextUserId` / `nextTaskId` counters.  Each HTTP handler becomes a pure
function from the store (plus the authenticated identity and the parsed
request body) to a response and the updated store.  Flask's
`request.get_json()` with a missing body or a missing key is modelled with
`Option`: `none` stands for "the key is absent or the body is empty/absent"
(the code's `not data or 'k' not in data` tests collapse to this one case,
since both branches return the same 400 response).  Werkzeug's salted
password hashing is delegated to the library, so the embedding takes the
hash and check functions as parameters (`gen`, `chk`).
-/

namespace TaskManager

/-- A row of the `users` table (`class User` in `main.py`): primary-key id,
unique email, salted password hash. -/
structure User where
  id : Nat
  email : String
  password_hash : String
deriving Repr, DecidableEq

/-- A row of the `tasks` table (`class Task` in `main.py`): primary-key id,
title, completed flag, and the NOT NULL foreign key `user_id` — each task
record carries exactly one owning user id. -/
structure Task where
  id : Nat
  title : String
  completed : Bool
  user_id : Nat
deriving Repr, DecidableEq

/-- The `{id, title, completed}` projection of a task that the handlers
serialize into JSON responses (it has exactly those three fields; in
particular `user_id` is never serialized). -/
structure TaskView where
  id : Nat
  title : String
  completed : Bool
deriving Repr, DecidableEq

/-- The JSON body of a response: an `{"error": msg}` object, a
`{"message": msg}` object, a `{"task": {...}}` object or a
`{"tasks": [...]}` object. -/
inductive Payload where
  | error (msg : String)
  | message (msg : String)
  | task (t : TaskView)
  | tasks (ts : List TaskView)
deriving Repr, DecidableEq

/-- A response: HTTP status code and JSON body. -/
abbrev Resp := Nat × Payload

/-- The task views a response body exposes to the client (used to state that
a handler only ever reads tasks of the authenticated user). -/
def Payload.views : Payload → List TaskView
  | .task t => [t]
  | .tasks ts => ts
  | _ => []

/-- The relational store: the two tables plus the autoincrement counters. -/
structure DB where
  users : List User
  tasks : List Task
  nextUserId : Nat
  nextTaskId : Nat
deriving Repr, DecidableEq

/-- The serialized form of a task, `{"id": t.id, "title": t.title,
"completed": t.completed}` as built in `get_tasks`, `create_task` and
`toggle_task`. -/
def Task.view (t : Task) : TaskView :=
  ⟨t.id, t.title, t.completed⟩

/-- `POST /api/signup` (`signup` in `main.py`). `gen` is werkzeug's
`generate_password_hash`.  Missing email or password → 400; an existing user
with the same email (`query(User).filter_by(email=...).first()`) → 400;
otherwise a new `User` with the hashed password is inserted and 201
returned. -/
def signup (gen : String → String) (db : DB)
    (email? password? : Option String) : Resp × DB :=
  match email?, password? with
  | some email, some password =>
    match db.users.find? (fun u => u.email == email) with
    | some _ => ((400, .error "Email already registered"), db)
    | none =>
      let u : User := ⟨db.nextUserId, email, gen password⟩
      ((201, .message "Account created successfully"),
       { db with users := db.users ++ [u], nextUserId := db.nextUserId + 1 })
  | _, _ => ((400, .error "Email and password required"), db)

/-- `POST /api/login` (`login` in `main.py`). `chk` is werkzeug's
`check_password_hash`.  Returns the response and the session identity
established by `login_user` (`none` when no session is established). -/
def login (chk : String → String → Bool) (db : DB)
    (email? password? : Option String) : Resp × Option Nat :=
  match email?, password? with
  | some email, some password =>
    match db.users.find? (fun u => u.email == email) with
    | some user =>
      if chk user.password_hash password then
        ((200, .message "Login successful"), some user.id)
      else
        ((401, .error "Invalid email or password"), none)
    | none => ((401, .error "Invalid email or password"), none)
  | _, _ => ((400, .error "Email and password required"), none)

/-- `GET /tasks` (`get_tasks` in `main.py`): the tasks with
`user_id = current_user.id`, each serialized as `{id, title, completed}`.
The store is not mutated. -/
def get_tasks (db : DB) (uid : Nat) : Resp :=
  (200, .tasks ((db.tasks.filter (fun t => t.user_id == uid)).map Task.view))

/-- `POST /tasks` (`create_task` in `main.py`): 400 when the body has no
`title` key; otherwise a new `Task` owned by `uid` is inserted
(`completed` left at its column default `False`) and echoed back with
201. -/
def create_task (db : DB) (uid : Nat) (title? : Option String) : Resp × DB :=
  match title? with
  | none => ((400, .error "Title is required"), db)
  | some title =>
    let t : Task := ⟨db.nextTaskId, title, false, uid⟩
    ((201, .task t.view),
     { db with tasks := db.tasks ++ [t], nextTaskId := db.nextTaskId + 1 })

/-- The row `query(Task).filter_by(id=task_id, user_id=uid)` selects. -/
def Task.owned (taskId uid : Nat) (t : Task) : Bool :=
  t.id == taskId && t.user_id == uid

/-- `task.completed = not task.completed; session.commit()`: flip the
`completed` flag of the first row matching `filter_by(id=task_id,
user_id=uid)`, in place. -/
def toggleFirst (taskId uid : Nat) : List Task → List Task
  | [] => []
  | t :: ts =>
    if Task.owned taskId uid t then
      { t with completed := !t.completed } :: ts
    else
      t :: toggleFirst taskId uid ts

/-- `session.delete(task); session.commit()`: remove the first row matching
`filter_by(id=task_id, user_id=uid)`. -/
def deleteFirst (taskId uid : Nat) : List Task → List Task
  | [] => []
  | t :: ts =>
    if Task.owned taskId uid t then ts else t :: deleteFirst taskId uid ts

/-- `PUT /tasks/<task_id>/toggle` (`toggle_task` in `main.py`): 404 when no
task with this id is owned by `uid`; otherwise the flag is flipped,
committed, and the updated record returned with 200 (jsonify's default
status). -/
def toggle_task (db : DB) (uid : Nat) (taskId : Nat) : Resp × DB :=
  match db.tasks.find? (Task.owned taskId uid) with
  | none => ((404, .error "Task not found"), db)
  | some t =>
    ((200, .task ⟨t.id, t.title, !t.completed⟩),
     { db with tasks := toggleFirst taskId uid db.tasks })

/-- `DELETE /tasks/<task_id>` (`delete_task` in `main.py`): the row is
deleted when it exists and is owned by `uid`; the response is 200
`{"message": "Task deleted"}` in every case. -/
def delete_task (db : DB) (uid : Nat) (taskId : Nat) : Resp × DB :=
  match db.tasks.find? (Task.owned taskId uid) with
  | none => ((200, .message "Task deleted"), db)
  | some _ =>
    ((200, .message "Task deleted"),
     { db with tasks := deleteFirst taskId uid db.tasks })

/-- `GET /health` (`health` in `main.py`). -/
def health : Resp := (200, .message "healthy")

/-- One authenticated task request (the four `@login_required` task
routes). -/
inductive Req where
  | list
  | create (title? : Option String)
  | toggle (taskId : Nat)
  | delete (taskId : Nat)
deriving Repr, DecidableEq

/-- Dispatch one authenticated task request for identity `uid`. -/
def applyReq (db : DB) (uid : Nat) : Req → Resp × DB
  | .list => (get_tasks db uid, db)
  | .create title? => create_task db uid title?
  | .toggle i => toggle_task db uid i
  | .delete i => delete_task db uid i

/-- Run a sequence of authenticated task requests, each with its own
authenticated identity. -/
def runTrace (db : DB) : List (Nat × Req) → DB
  | [] => db
  | (uid, r) :: rest => runTrace (applyReq db uid r).2 rest

/-- A concrete store used to instantiate theorems: two users, one task
each. -/
def dbEx : DB :=
  { users := [⟨1, "a@x.com", "hp"⟩, ⟨2, "b@x.com", "hq"⟩],
    tasks := [⟨1, "buy milk", false, 1⟩, ⟨2, "walk dog", true, 2⟩],
    nextUserId := 3,
    nextTaskId := 3 }

/-! ### Helper lemmas -/

/-- A successful `find?` splits the list around the first match. -/
theorem find?_decompose {α : Type} {p : α → Bool} {l : List α} {a : α}
    (h : l.find? p = some a) :
    ∃ l₁ l₂, l = l₁ ++ a :: l₂ ∧ (∀ x ∈ l₁, p x = false) ∧ p a = true := by
  induction l with
  | nil => simp [List.find?] at h
  | cons x xs ih =>
    by_cases hx : p x
    · rw [List.find?_cons_of_pos _ hx] at h
      obtain rfl : x = a := Option.some.inj h
      exact ⟨[], xs, by simp [hx]⟩
    · rw [List.find?_cons_of_neg _ (by simpa using hx)] at h
      obtain ⟨l₁, l₂, hsplit, hfail, hpa⟩ := ih h
      exact ⟨x :: l₁, l₂, by simp [hsplit], by
        intro y hy
        rcases List.mem_cons.mp hy with rfl | hy
        · simpa using hx
        · exact hfail y hy, hpa⟩

/-- If a list maps injectively to keys, `find?` for a predicate that pins the
key down returns the unique member satisfying it. -/
theorem find?_eq_of_nodup_key {α β : Type} {f : α → β} {p : α → Bool}
    {l : List α} {a : α} (hn : (l.map f).Nodup) (ha : a ∈ l)
    (hpa : p a = true) (hkey : ∀ x, p x = true → f x = f a) :
    l.find? p = some a := by
  induction l with
  | nil => cases ha
  | cons x xs ih =>
    rcases List.mem_cons.mp ha with rfl | ha
    · exact List.find?_cons_of_pos _ hpa
    · have hxs : (xs.map f).Nodup := (List.nodup_cons.mp hn).2
      have hfx : f x ∉ xs.map f := by
        simpa using (List.nodup_cons.mp hn).1
      have hx : p x = false := by
        by_contra hcon
        have : p x = true := by simpa using hcon
        exact hfx ((hkey x this) ▸ List.mem_map_of_mem f ha)
      rw [List.find?_cons_of_neg _ (by simp [hx])]
      exact ih hxs ha

/-- When no row matches, toggling is the identity on the table. -/
theorem toggleFirst_of_find?_none {tid uid : Nat} {l : List Task}
    (h : l.find? (Task.owned tid uid) = none) : toggleFirst tid uid l = l := by
  induction l with
  | nil => rfl
  | cons t ts ih =>
    rw [List.find?_cons] at h
    cases ho : Task.owned tid uid t with
    | true => simp [ho] at h
    | false =>
      rw [ho] at h
      simp [toggleFirst, ho, ih h]

/-- When no row matches, deleting is the identity on the table. -/
theorem deleteFirst_of_find?_none {tid uid : Nat} {l : List Task}
    (h : l.find? (Task.owned tid uid) = none) : deleteFirst tid uid l = l := by
  induction l with
  | nil => rfl
  | cons t ts ih =>
    rw [List.find?_cons] at h
    cases ho : Task.owned tid uid t with
    | true => simp [ho] at h
    | false =>
      rw [ho] at h
      simp [deleteFirst, ho, ih h]

/-- Toggling rewrites exactly the first matching row, in place. -/
theorem toggleFirst_append_cons {tid uid : Nat} {l₁ l₂ : List Task} {t : Task}
    (h₁ : ∀ x ∈ l₁, Task.owned tid uid x = false)
    (ht : Task.owned tid uid t = true) :
    toggleFirst tid uid (l₁ ++ t :: l₂) =
      l₁ ++ { t with completed := !t.completed } :: l₂ := by
  induction l₁ with
  | nil => simp [toggleFirst, ht]
  | cons x xs ih =>
    have hx : Task.owned tid uid x = false := h₁ x (List.mem_cons_self x xs)
    simp only [List.cons_append, toggleFirst, hx, Bool.false_eq_true,
      if_false, List.cons.injEq, true_and]
    exact ih fun y hy => h₁ y (List.mem_cons_of_mem x hy)

/-- Deleting removes exactly the first matching row. -/
theorem deleteFirst_append_cons {tid uid : Nat} {l₁ l₂ : List Task} {t : Task}
    (h₁ : ∀ x ∈ l₁, Task.owned tid uid x = false)
    (ht : Task.owned tid uid t = true) :
    deleteFirst tid uid (l₁ ++ t :: l₂) = l₁ ++ l₂ := by
  induction l₁ with
  | nil => simp [deleteFirst, ht]
  | cons x xs ih =>
    have hx : Task.owned tid uid x = false := h₁ x (List.mem_cons_self x xs)
    simp only [List.cons_append, deleteFirst, hx, Bool.false_eq_true,
      if_false, List.cons.injEq, true_and]
    exact ih fun y hy => h₁ y (List.mem_cons_of_mem x hy)

/-- The matching predicate, unfolded to a proposition. -/
theorem owned_iff {tid uid : Nat} {t : Task} :
    Task.owned tid uid t = true ↔ t.id = tid ∧ t.user_id = uid := by
  simp [Task.owned]

/-- A flipped row still matches the same id and owner. -/
theorem owned_flip {tid uid : Nat} {t : Task} :
    Task.owned tid uid { t with completed := !t.completed } =
      Task.owned tid uid t := by
  simp [Task.owned]

/-- Toggling twice restores the table (the second toggle finds the flipped
row at the same position and flips it back). -/
theorem toggleFirst_toggleFirst {tid uid : Nat} (l : List Task) :
    toggleFirst tid uid (toggleFirst tid uid l) = l := by
  induction l with
  | nil => rfl
  | cons t ts ih =>
    cases ho : Task.owned tid uid t with
    | true =>
      simp only [toggleFirst, ho, if_true, owned_flip.trans ho, Bool.not_not]
    | false =>
      simp [toggleFirst, ho, ih]

/-- After a successful toggle, the same lookup finds the flipped row. -/
theorem find?_toggleFirst {tid uid : Nat} {l : List Task} {t : Task}
    (h : l.find? (Task.owned tid uid) = some t) :
    (toggleFirst tid uid l).find? (Task.owned tid uid) =
      some { t with completed := !t.completed } := by
  obtain ⟨l₁, l₂, rfl, hfail, hpt⟩ := find?_decompose h
  rw [toggleFirst_append_cons hfail hpt, List.find?_append,
    List.find?_eq_none.mpr (by intro x hx; simp [hfail x hx]),
    Option.none_or, List.find?_cons_of_pos _ (owned_flip.trans hpt)]

/-- Rows of other users pass through `toggleFirst` untouched: the flipped
row (if any) is owned by `uid` and its owner is unchanged by the flip. -/
theorem filter_toggleFirst {tid uid : Nat} (l : List Task) :
    (toggleFirst tid uid l).filter (fun t => t.user_id != uid) =
      l.filter (fun t => t.user_id != uid) := by
  induction l with
  | nil => rfl
  | cons t ts ih =>
    cases ho : Task.owned tid uid t with
    | true =>
      have hu : t.user_id = uid := (owned_iff.mp ho).2
      simp [toggleFirst, ho, List.filter_cons, hu]
    | false =>
      simp only [toggleFirst, ho, Bool.false_eq_true, if_false,
        List.filter_cons]
      rw [ih]


/-- Rows of other users pass through `deleteFirst` untouched: the removed
row (if any) is owned by `uid`. -/
theorem filter_deleteFirst {tid uid : Nat} (l : List Task) :
    (deleteFirst tid uid l).filter (fun t => t.user_id != uid) =
      l.filter (fun t => t.user_id != uid) := by
  induction l with
  | nil => rfl
  | cons t ts ih =>
    cases ho : Task.owned tid uid t with
    | true =>
      have hu : t.user_id = uid := (owned_iff.mp ho).2
      simp [deleteFirst, ho, List.filter_cons, hu]
    | false =>
      simp only [deleteFirst, ho, Bool.false_eq_true, if_false,
        List.filter_cons]
      rw [ih]

/-- In a list with no duplicate keys, the key of the distinguished middle
element occurs in neither of the side lists. -/
theorem not_mem_key_parts {α β : Type} {f : α → β} {l₁ l₂ : List α} {a : α}
    (hn : ((l₁ ++ a :: l₂).map f).Nodup) :
    f a ∉ l₁.map f ∧ f a ∉ l₂.map f := by
  rw [List.map_append, List.map_cons, List.nodup_append] at hn
  obtain ⟨-, hn₂, hdisj⟩ := hn
  exact ⟨fun hmem => hdisj hmem (List.mem_cons_self _ _),
    (List.nodup_cons.mp hn₂).1⟩

/-- Preserving the rows of all other users preserves the rows of each fixed
other user. -/
theorem filter_eq_of_filter_ne {A uid : Nat} (h : A ≠ uid) {l l' : List Task}
    (hf : l'.filter (fun t => t.user_id != uid) =
      l.filter (fun t => t.user_id != uid)) :
    l'.filter (fun t => t.user_id == A) = l.filter (fun t => t.user_id == A) := by
  have key : ∀ m : List Task,
      (m.filter (fun t => t.user_id != uid)).filter (fun t => t.user_id == A) =
        m.filter (fun t => t.user_id == A) := by
    intro m
    rw [List.filter_filter]
    apply List.filter_congr
    intro t _
    by_cases ht : t.user_id = A
    · simp [ht, h]
    · simp [ht]
  rw [← key l', hf, key l]

/-- One authenticated task request never touches the `users` table. -/
theorem step_users_eq (db : DB) (uid : Nat) (req : Req) :
    (applyReq db uid req).2.users = db.users := by
  cases req with
  | list => rfl
  | create title? => cases title? <;> simp [applyReq, create_task]
  | toggle i =>
    rcases hfind : db.tasks.find? (Task.owned i uid) with _ | t <;>
      simp [applyReq, toggle_task, hfind]
  | delete i =>
    rcases hfind : db.tasks.find? (Task.owned i uid) with _ | t <;>
      simp [applyReq, delete_task, hfind]

/-- One authenticated task request leaves every other user's rows exactly as
they were. -/
theorem step_filter_ne (db : DB) (uid : Nat) (req : Req) :
    (applyReq db uid req).2.tasks.filter (fun t => t.user_id != uid) =
      db.tasks.filter (fun t => t.user_id != uid) := by
  cases req with
  | list => rfl
  | create title? =>
    cases title? with
    | none => rfl
    | some title =>
      simp [applyReq, create_task, List.filter_append]
  | toggle i =>
    rcases hfind : db.tasks.find? (Task.owned i uid) with _ | t
    · simp [applyReq, toggle_task, hfind]
    · simp [applyReq, toggle_task, hfind, filter_toggleFirst]
  | delete i =>
    rcases hfind : db.tasks.find? (Task.owned i uid) with _ | t
    · simp [applyReq, delete_task, hfind]
    · simp [applyReq, delete_task, hfind, filter_deleteFirst]

/-- Every task record a response serializes belongs to the authenticated
user and is present in the resulting store. -/
theorem step_views (db : DB) (uid : Nat) (req : Req) :
    ∀ v ∈ ((applyReq db uid req).1.2).views,
      ∃ t ∈ (applyReq db uid req).2.tasks, t.user_id = uid ∧ v = t.view := by
  cases req with
  | list =>
    intro v hv
    simp only [applyReq, get_tasks, Payload.views, List.mem_map,
      List.mem_filter] at hv
    obtain ⟨t, ⟨htm, htu⟩, rfl⟩ := hv
    exact ⟨t, htm, by simpa using htu, rfl⟩
  | create title? =>
    cases title? with
    | none => intro v hv; simp [applyReq, create_task, Payload.views] at hv
    | some title =>
      intro v hv
      simp only [applyReq, create_task, Payload.views,
        List.mem_singleton] at hv
      exact ⟨⟨db.nextTaskId, title, false, uid⟩, by
        simp [applyReq, create_task], rfl, by simp [hv, Task.view]⟩
  | toggle i =>
    rcases hfind : db.tasks.find? (Task.owned i uid) with _ | t
    · intro v hv; simp [applyReq, toggle_task, hfind, Payload.views] at hv
    · intro v hv
      simp only [applyReq, toggle_task, hfind, Payload.views,
        List.mem_singleton] at hv
      obtain ⟨l₁, l₂, hsplit, hfail, hpt⟩ := find?_decompose hfind
      refine ⟨{ t with completed := !t.completed }, ?_, ?_, ?_⟩
      · have h2 : (applyReq db uid (Req.toggle i)).2.tasks =
            toggleFirst i uid db.tasks := by
          simp [applyReq, toggle_task, hfind]
        rw [h2, hsplit, toggleFirst_append_cons hfail hpt]
        exact List.mem_append_right _ (List.mem_cons_self _ _)
      · exact (owned_iff.mp hpt).2
      · simp [hv, Task.view]
  | delete i =>
    rcases hfind : db.tasks.find? (Task.owned i uid) with _ | t <;>
      (intro v hv; simp [applyReq, delete_task, hfind, Payload.views] at hv)

/-- C1.  Ownership invariant.  Each `Task` record carries exactly one owning
`user_id` (a single required field of the `Task` structure, mirroring the
NOT NULL foreign key).  The theorem states the operational part: (1) every
task request (`listTasks`, `createTask`, `toggleTask`, `deleteTask`)
authenticated as `uid` leaves the `users` table and the task rows of every
other user untouched, and every task record its response serializes is owned
by `uid`; (2) over any sequence of requests none of which is authenticated as
`A`, the task rows owned by `A` are left exactly as they were — so no
reachable sequence of requests reads or changes a task through a request
authenticated as a different user. -/
theorem ownership_invariant :
    (∀ (db : DB) (uid : Nat) (req : Req),
      (applyReq db uid req).2.users = db.users ∧
      (applyReq db uid req).2.tasks.filter (fun t => t.user_id != uid) =
        db.tasks.filter (fun t => t.user_id != uid) ∧
      ∀ v ∈ ((applyReq db uid req).1.2).views,
        ∃ t ∈ (applyReq db uid req).2.tasks, t.user_id = uid ∧ v = t.view)
    ∧ ∀ (A : Nat) (trace : List (Nat × Req)) (db : DB),
        (∀ p ∈ trace, p.1 ≠ A) →
        (runTrace db trace).tasks.filter (fun t => t.user_id == A) =
          db.tasks.filter (fun t => t.user_id == A) := by
  constructor
  · exact fun db uid req =>
      ⟨step_users_eq db uid req, step_filter_ne db uid req,
        step_views db uid req⟩
  · intro A trace
    induction trace with
    | nil => intro db _; rfl
    | cons p rest ih =>
      intro db h
      obtain ⟨uid, r⟩ := p
      have huid : uid ≠ A := h (uid, r) (List.mem_cons_self _ _)
      calc (runTrace (applyReq db uid r).2 rest).tasks.filter
              (fun t => t.user_id == A)
          = (applyReq db uid r).2.tasks.filter (fun t => t.user_id == A) :=
            ih _ fun q hq => h q (List.mem_cons_of_mem _ hq)
        _ = db.tasks.filter (fun t => t.user_id == A) :=
            filter_eq_of_filter_ne (fun hA => huid hA.symm)
              (step_filter_ne db uid r)

/-- C2 (counterexample to the claim as stated).  In the concrete store
`dbEx`, the task with id 1 is owned by user 1, user 2 is a different
authenticated user, yet `deleteTask` by user 2 on id 1 answers 200 (the
success message), not the claimed NotFoundError 404. -/
theorem cross_user_delete_not_404 :
    (⟨1, "buy milk", false, 1⟩ : Task) ∈ dbEx.tasks ∧ (1 : Nat) ≠ 2 ∧
      (delete_task dbEx 2 1).1.1 = 200 ∧ (delete_task dbEx 2 1).1.1 ≠ 404 := by
  decide

/-- C2 (amended).  For distinct authenticated users `A ≠ B` and a task id
belonging to a task owned by `A` (task ids unique, as the primary key
guarantees), `toggleTask` by `B` on that id returns NotFoundError 404 and
leaves the store unchanged, while `deleteTask` by `B` on that id returns the
200 success message and also leaves the store unchanged — `A`'s task is
neither toggled nor deleted, but delete does not answer 404. -/
theorem cross_user_isolation (db : DB) (A B tid : Nat) (t : Task)
    (hAB : A ≠ B) (hn : (db.tasks.map Task.id).Nodup)
    (ht : t ∈ db.tasks) (hid : t.id = tid) (hu : t.user_id = A) :
    toggle_task db B tid = ((404, Payload.error "Task not found"), db)
    ∧ delete_task db B tid = ((200, Payload.message "Task deleted"), db) := by
  have hnone : db.tasks.find? (Task.owned tid B) = none := by
    rw [List.find?_eq_none]
    intro x hx hox
    obtain ⟨hxid, hxu⟩ := owned_iff.mp hox
    have hxt : x = t :=
      List.inj_on_of_nodup_map hn hx ht (by rw [hxid, hid])
    rw [hxt, hu] at hxu
    exact hAB hxu
  exact ⟨by simp [toggle_task, hnone], by simp [delete_task, hnone]⟩

/-- C2 witness: instantiating the amended statement on the concrete store. -/
theorem cross_user_isolation_witness :
    toggle_task dbEx 2 1 = ((404, Payload.error "Task not found"), dbEx)
    ∧ delete_task dbEx 2 1 = ((200, Payload.message "Task deleted"), dbEx) :=
  cross_user_isolation dbEx 1 2 1 ⟨1, "buy milk", false, 1⟩ (by decide)
    (by decide) (by decide) rfl rfl

/-- C3.  `deleteTask` is total on success and idempotent: the response is
always the 200 success message; and (with unique task ids, as the primary
key guarantees) after the request no task with that id owned by the identity
remains — if one existed it was removed — and repeating the same delete
returns the same 200 success and changes nothing. -/
theorem delete_task_contract (db : DB) (uid tid : Nat) :
    (delete_task db uid tid).1 = (200, Payload.message "Task deleted")
    ∧ ((db.tasks.map Task.id).Nodup →
        (¬ ∃ t ∈ (delete_task db uid tid).2.tasks,
            t.id = tid ∧ t.user_id = uid)
        ∧ delete_task (delete_task db uid tid).2 uid tid =
            ((200, Payload.message "Task deleted"),
             (delete_task db uid tid).2)) := by
  constructor
  · rcases hfind : db.tasks.find? (Task.owned tid uid) with _ | t <;>
      simp [delete_task, hfind]
  · intro hn
    rcases hfind : db.tasks.find? (Task.owned tid uid) with _ | t
    · have h2 : (delete_task db uid tid).2 = db := by
        simp [delete_task, hfind]
      refine ⟨?_, ?_⟩
      · rintro ⟨x, hx, hxid, hxu⟩
        rw [h2] at hx
        exact List.find?_eq_none.mp hfind x hx (owned_iff.mpr ⟨hxid, hxu⟩)
      · rw [h2]
        simp [delete_task, hfind]
    · obtain ⟨l₁, l₂, hsplit, hfail, hpt⟩ := find?_decompose hfind
      have h2 : (delete_task db uid tid).2.tasks = l₁ ++ l₂ := by
        have hd : (delete_task db uid tid).2.tasks =
            deleteFirst tid uid db.tasks := by
          simp [delete_task, hfind]
        rw [hd, hsplit, deleteFirst_append_cons hfail hpt]
      have hnomatch : ∀ x ∈ l₁ ++ l₂, Task.owned tid uid x = false := by
        intro x hx
        rcases List.mem_append.mp hx with h1 | hr
        · exact hfail x h1
        · by_contra hcon
          have hox : Task.owned tid uid x = true := by simpa using hcon
          have hxid : x.id = t.id := by
            rw [(owned_iff.mp hox).1, (owned_iff.mp hpt).1]
          exact (not_mem_key_parts (f := Task.id) (hsplit ▸ hn)).2
            (hxid ▸ List.mem_map_of_mem Task.id hr)
      have hfind2 : (delete_task db uid tid).2.tasks.find?
          (Task.owned tid uid) = none := by
        rw [h2, List.find?_eq_none]
        intro x hx
        simp [hnomatch x hx]
      refine ⟨?_, ?_⟩
      · rintro ⟨x, hx, hxid, hxu⟩
        rw [h2] at hx
        have := hnomatch x hx
        rw [owned_iff.mpr ⟨hxid, hxu⟩] at this
        cases this
      · generalize hS : (delete_task db uid tid).2 = S at hfind2 ⊢
        simp [delete_task, hfind2]

/-- C4 (counterexample to the claim as stated).  The claim says the request
fails with 400 whenever the title is empty; but a request with the empty
title present is accepted: it answers 201 and creates a task whose title is
the empty string. -/
theorem create_task_empty_title_cex :
    (create_task dbEx 1 (some "")).1 = (201, Payload.task ⟨3, "", false⟩)
    ∧ (create_task dbEx 1 (some "")).1.1 ≠ 400 := by
  decide

/-- C4 (amended).  `createTask` fails with ValidationError 400 (store
unchanged) if and only if the `title` key is absent from the request body
(an empty or arbitrarily long title is accepted as given — the handler does
not validate non-emptiness or the 200-character bound); otherwise it appends
exactly one new task owned by the identity, with the given title and
`completed = false`, and returns the created record with 201.  Provided all
existing ids are below the autoincrement counter, the new task's id is not
that of any existing task. -/
theorem create_task_contract (db : DB) (uid : Nat) (title? : Option String) :
    (title? = none →
      create_task db uid title? = ((400, Payload.error "Title is required"), db))
    ∧ ∀ title, title? = some title →
        ∃ t : Task, t.user_id = uid ∧ t.title = title ∧ t.completed = false ∧
          create_task db uid title? =
            ((201, Payload.task t.view),
             { db with tasks := db.tasks ++ [t],
                       nextTaskId := db.nextTaskId + 1 })
          ∧ ((∀ x ∈ db.tasks, x.id < db.nextTaskId) →
              t.id ∉ db.tasks.map Task.id) := by
  constructor
  · rintro rfl
    rfl
  · rintro title rfl
    refine ⟨⟨db.nextTaskId, title, false, uid⟩, rfl, rfl, rfl, rfl, ?_⟩
    intro hlt hmem
    obtain ⟨x, hx, hxid⟩ := List.mem_map.mp hmem
    have := hlt x hx
    simp only [Task.id] at hxid
    omega

/-- C5.  `toggleTask` contract: the response is NotFoundError 404 (with the
store unchanged) if and only if no task with the given id owned by the
identity exists; otherwise the matching task's `completed` flag is flipped
in place in the store and the updated record is returned with 200. -/
theorem toggle_task_contract (db : DB) (uid tid : Nat) :
    ((toggle_task db uid tid).1.1 = 404 ↔
      ¬ ∃ t ∈ db.tasks, t.id = tid ∧ t.user_id = uid)
    ∧ ((toggle_task db uid tid).1.1 = 404 →
        toggle_task db uid tid = ((404, Payload.error "Task not found"), db))
    ∧ ((toggle_task db uid tid).1.1 ≠ 404 →
        ∃ t l₁ l₂, db.tasks = l₁ ++ t :: l₂ ∧ t.id = tid ∧ t.user_id = uid ∧
          toggle_task db uid tid =
            ((200, Payload.task ⟨t.id, t.title, !t.completed⟩),
             { db with tasks :=
                 l₁ ++ { t with completed := !t.completed } :: l₂ })) := by
  rcases hfind : db.tasks.find? (Task.owned tid uid) with _ | t
  · have hres : toggle_task db uid tid =
        ((404, Payload.error "Task not found"), db) := by
      simp [toggle_task, hfind]
    rw [hres]
    refine ⟨iff_of_true rfl ?_, fun _ => rfl, fun h => absurd rfl h⟩
    rintro ⟨t, ht, hid, hu⟩
    exact List.find?_eq_none.mp hfind t ht (owned_iff.mpr ⟨hid, hu⟩)
  · have hown := List.find?_some hfind
    have hmem := List.mem_of_find?_eq_some hfind
    have hres : toggle_task db uid tid =
        ((200, Payload.task ⟨t.id, t.title, !t.completed⟩),
         { db with tasks := toggleFirst tid uid db.tasks }) := by
      simp [toggle_task, hfind]
    rw [hres]
    refine ⟨iff_of_false (by simp) ?_, fun h => absurd h (by simp), ?_⟩
    · intro hcon
      exact hcon ⟨t, hmem, (owned_iff.mp hown).1, (owned_iff.mp hown).2⟩
    · intro _
      obtain ⟨l₁, l₂, hsplit, hfail, hpt⟩ := find?_decompose hfind
      refine ⟨t, l₁, l₂, hsplit, (owned_iff.mp hown).1,
        (owned_iff.mp hown).2, ?_⟩
      rw [hsplit, toggleFirst_append_cons hfail hpt]

/-- C6.  Login contract (for a request carrying both email and password;
emails unique, as signup and the column's UNIQUE constraint guarantee):
login answers 200 and establishes the session for that user's id exactly
when a user with the given email exists and the password matches the stored
hash (`check_password_hash`, here the parameter `chk`); when the email is
unknown or the hash does not match it answers AuthError 401 and establishes
no session. -/
theorem login_contract (chk : String → String → Bool) (db : DB)
    (e p : String) (hn : (db.users.map User.email).Nodup) :
    (∀ u ∈ db.users, u.email = e → chk u.password_hash p = true →
        login chk db (some e) (some p) =
          ((200, Payload.message "Login successful"), some u.id))
    ∧ ((¬ ∃ u ∈ db.users, u.email = e ∧ chk u.password_hash p = true) →
        login chk db (some e) (some p) =
          ((401, Payload.error "Invalid email or password"), none)) := by
  constructor
  · intro u hu he hchk
    have hfind : db.users.find? (fun x => x.email == e) = some u :=
      find?_eq_of_nodup_key (f := User.email) hn hu (by simp [he])
        (fun x hx => by
          have hx' : x.email = e := by simpa using hx
          rw [hx', he])
    simp [login, hfind, hchk]
  · intro hno
    rcases hfind : db.users.find? (fun x => x.email == e) with _ | u
    · simp [login, hfind]
    · have hmem := List.mem_of_find?_eq_some hfind
      have hemail : u.email = e := by simpa using List.find?_some hfind
      have hchk : chk u.password_hash p = false := by
        by_contra hcon
        exact hno ⟨u, hmem, hemail, by simpa using hcon⟩
      simp [login, hfind, hchk]

/-- C6 witness: on the concrete store (with `chk` instantiated to a
comparison against the stored hash), login with the right password answers
200 and binds the session to user 1. -/
theorem login_contract_witness :
    login (fun h q => h == "h" ++ q) dbEx (some "a@x.com") (some "p") =
      ((200, Payload.message "Login successful"), some 1) :=
  (login_contract (fun h q => h == "h" ++ q) dbEx "a@x.com" "p"
    (by decide)).1 ⟨1, "a@x.com", "hp"⟩ (by decide) rfl (by decide)

/-- C7.  Signup contract: with both email and password present, signup
fails with ConflictError (400, "Email already registered", store unchanged)
exactly when a user with that email already exists, and otherwise persists
one new `User` carrying the hashed password (`generate_password_hash`, here
the parameter `gen`) and answers 201; with email or password missing it
fails with ValidationError (400, store unchanged). -/
theorem signup_contract (gen : String → String) (db : DB) (e p : String) :
    ((∃ u ∈ db.users, u.email = e) →
      signup gen db (some e) (some p) =
        ((400, Payload.error "Email already registered"), db))
    ∧ ((¬ ∃ u ∈ db.users, u.email = e) →
      signup gen db (some e) (some p) =
        ((201, Payload.message "Account created successfully"),
         { db with users := db.users ++ [⟨db.nextUserId, e, gen p⟩],
                   nextUserId := db.nextUserId + 1 }))
    ∧ (∀ e?, signup gen db e? none =
        ((400, Payload.error "Email and password required"), db))
    ∧ (∀ p?, signup gen db none p? =
        ((400, Payload.error "Email and password required"), db)) := by
  refine ⟨?_, ?_, ?_, ?_⟩
  · rintro ⟨u, hu, he⟩
    rcases hfind : db.users.find? (fun x => x.email == e) with _ | v
    · exact absurd (by simp [he]) (List.find?_eq_none.mp hfind u hu)
    · simp [signup, hfind]
  · intro hno
    rcases hfind : db.users.find? (fun x => x.email == e) with _ | v
    · simp [signup, hfind]
    · exact absurd ⟨v, List.mem_of_find?_eq_some hfind,
        by simpa using List.find?_some hfind⟩ hno
  · intro e?
    cases e? <;> rfl
  · intro p?
    rfl

/-- C8.  Toggle is an involution: for a task owned by the authenticated
identity (task ids unique, as the primary key guarantees), toggling its id
twice answers 200 with the task back at its original `completed` value and
restores the store exactly. -/
theorem toggle_involution (db : DB) (uid tid : Nat) (t : Task)
    (hn : (db.tasks.map Task.id).Nodup) (ht : t ∈ db.tasks)
    (hid : t.id = tid) (hu : t.user_id = uid) :
    toggle_task (toggle_task db uid tid).2 uid tid =
      ((200, Payload.task ⟨t.id, t.title, t.completed⟩), db) := by
  have hfind : db.tasks.find? (Task.owned tid uid) = some t :=
    find?_eq_of_nodup_key (f := Task.id) hn ht (owned_iff.mpr ⟨hid, hu⟩)
      (fun x hx => by rw [(owned_iff.mp hx).1, hid])
  have h1 : (toggle_task db uid tid).2 =
      { db with tasks := toggleFirst tid uid db.tasks } := by
    simp [toggle_task, hfind]
  have hfind2 : (toggleFirst tid uid db.tasks).find? (Task.owned tid uid) =
      some { t with completed := !t.completed } := find?_toggleFirst hfind
  obtain ⟨us, ts, nu, nt⟩ := db
  rw [h1]
  simp [toggle_task, hfind2, toggleFirst_toggleFirst]

/-- C8 witness: toggling task 1 of user 1 twice on the concrete store
returns `completed` to `false` and restores the store. -/
theorem toggle_involution_witness :
    toggle_task (toggle_task dbEx 1 1).2 1 1 =
      ((200, Payload.task ⟨1, "buy milk", false⟩), dbEx) :=
  toggle_involution dbEx 1 1 ⟨1, "buy milk", false, 1⟩ (by decide)
    (by decide) rfl rfl

/-- C9.  `listTasks` returns, with status 200, exactly the tasks owned by
the authenticated identity: the view of every owned task appears, and every
element of the response is the `{id, title, completed}` view (the
`TaskView` structure has exactly those three fields) of some owned task in
the store. -/
theorem get_tasks_spec (db : DB) (uid : Nat) :
    ∃ vs, get_tasks db uid = (200, Payload.tasks vs) ∧
      (∀ t ∈ db.tasks, t.user_id = uid → t.view ∈ vs) ∧
      (∀ v ∈ vs, ∃ t ∈ db.tasks, t.user_id = uid ∧ v = t.view) := by
  refine ⟨_, rfl, ?_, ?_⟩
  · intro t ht hu
    exact List.mem_map_of_mem Task.view (List.mem_filter.mpr ⟨ht, by simp [hu]⟩)
  · intro v hv
    obtain ⟨t, htf, rfl⟩ := List.mem_map.mp hv
    obtain ⟨htm, hu⟩ := List.mem_filter.mp htf
    exact ⟨t, htm, by simpa using hu, rfl⟩

/-- C10.  Frame property of a successful toggle: the store is changed only
by replacing the toggled row, in place, with a row that keeps its `id`,
`title` and `user_id` and flips `completed`; every other task row, the
whole `users` table and both autoincrement counters are untouched. -/
theorem toggle_frame (db : DB) (uid tid : Nat) (t : Task)
    (h : db.tasks.find? (Task.owned tid uid) = some t) :
    ∃ l₁ l₂, db.tasks = l₁ ++ t :: l₂ ∧
      (toggle_task db uid tid).2 =
        { db with tasks :=
            l₁ ++ (⟨t.id, t.title, !t.completed, t.user_id⟩ : Task) :: l₂ } := by
  obtain ⟨l₁, l₂, hsplit, hfail, hpt⟩ := find?_decompose h
  refine ⟨l₁, l₂, hsplit, ?_⟩
  have h1 : (toggle_task db uid tid).2 =
      { db with tasks := toggleFirst tid uid db.tasks } := by
    simp [toggle_task, h]
  rw [h1, hsplit, toggleFirst_append_cons hfail hpt]

/-- C10 witness: toggling task 1 of user 1 on the concrete store rewrites
exactly that row. -/
theorem toggle_frame_witness :
    ∃ l₁ l₂, dbEx.tasks = l₁ ++ (⟨1, "buy milk", false, 1⟩ : Task) :: l₂ ∧
      (toggle_task dbEx 1 1).2 =
        { dbEx with tasks :=
            l₁ ++ (⟨1, "buy milk", true, 1⟩ : Task) :: l₂ } :=
  toggle_frame dbEx 1 1 ⟨1, "buy milk", false, 1⟩ (by decide)

end TaskManager
